import Mathlib

/-!
Shallow embedding of the `netdev` repository core (src/mac.rs,
src/interface/types.rs, src/interface/unix.rs).

Rust strings are modelled as `List Char`; Rust `u8`/`u32` values are
modelled as `Nat` (the parsers below enforce the `≤ 255` bound exactly
where the Rust code's checked arithmetic does).  Fallible Rust code
returns `Option`/`Except`; a Rust panic is modelled as `Option.none`.
-/

namespace Netdev

/-- Decidable equality for `Except`, used to evaluate the parsers on
concrete inputs. -/
instance {ε α : Type} [DecidableEq ε] [DecidableEq α] : DecidableEq (Except ε α) := fun x y =>
  match x, y with
  | .ok a, .ok b =>
      if h : a = b then .isTrue (by rw [h]) else .isFalse (by simp [h])
  | .error e, .error e' =>
      if h : e = e' then .isTrue (by rw [h]) else .isFalse (by simp [h])
  | .ok _, .error _ => .isFalse (by simp)
  | .error _, .ok _ => .isFalse (by simp)

/-- Structure of MAC address: six `u8` octets (src/mac.rs `MacAddr`). -/
structure MacAddr where
  o0 : Nat
  o1 : Nat
  o2 : Nat
  o3 : Nat
  o4 : Nat
  o5 : Nat
deriving DecidableEq, Repr

namespace MacAddr

/-- Octets of a MAC address as a list (src/mac.rs `MacAddr::octets`). -/
def octets (m : MacAddr) : List Nat :=
  [m.o0, m.o1, m.o2, m.o3, m.o4, m.o5]

/-- All-zero MAC address (src/mac.rs `MacAddr::zero`). -/
def zero : MacAddr := ⟨0, 0, 0, 0, 0, 0⟩

/-- All-0xff broadcast MAC address (src/mac.rs `MacAddr::broadcast`). -/
def broadcast : MacAddr := ⟨0xff, 0xff, 0xff, 0xff, 0xff, 0xff⟩

end MacAddr

/-- Helper for `splitOnColon`: returns the first field (up to the first
`':'`) and the list of remaining fields, mirroring Rust `str::split(':')`
which always yields at least one (possibly empty) field. -/
def splitAux : List Char → List Char × List (List Char)
  | [] => ([], [])
  | c :: rest =>
      let r := splitAux rest
      if c = ':' then ([], r.1 :: r.2) else (c :: r.1, r.2)

/-- Rust `s.split(':')` as a list of fields; on the empty string it yields
one empty field, exactly as Rust's iterator does. -/
def splitOnColon (s : List Char) : List (List Char) :=
  (splitAux s).1 :: (splitAux s).2

/-- Value of one hexadecimal digit character, as accepted by Rust
`char::to_digit(16)` ('0'-'9', 'a'-'f', 'A'-'F'). -/
def hexDigitVal (c : Char) : Option Nat :=
  if '0' ≤ c ∧ c ≤ '9' then some (c.toNat - '0'.toNat)
  else if 'a' ≤ c ∧ c ≤ 'f' then some (c.toNat - 'a'.toNat + 10)
  else if 'A' ≤ c ∧ c ≤ 'F' then some (c.toNat - 'A'.toNat + 10)
  else none

/-- Accumulating digit loop of Rust `u8::from_str_radix(_, 16)`: each step
performs the checked `result * 16 + digit`, failing on a non-digit or when
the value overflows the `u8` range. -/
def hexAccum : Nat → List Char → Option Nat
  | acc, [] => some acc
  | acc, c :: cs =>
      match hexDigitVal c with
      | some d => if acc * 16 + d ≤ 255 then hexAccum (acc * 16 + d) cs else none
      | none => none

/-- Rust `u8::from_str_radix(s, 16)`: an optional leading `'+'` (a `'-'` is
rejected for unsigned types), then a nonempty run of hex digits whose value
fits in a `u8`. -/
def fromStrRadix16 (s : List Char) : Option Nat :=
  let digits := match s with
    | '+' :: rest => rest
    | _ => s
  match digits with
  | [] => none
  | _ => hexAccum 0 digits

/-- Errors of strict MAC parsing (src/mac.rs `ParseMacAddrError`). -/
inductive ParseMacAddrError where
  | TooManyComponents
  | TooFewComponents
  | InvalidComponent
deriving DecidableEq, Repr

/-- The `for split in splits` loop of src/mac.rs `MacAddr::from_str`:
`acc` plays the role of the `parts` array filled so far (the Rust loop
counter `i` is `acc.length`).  A seventh field yields `TooManyComponents`
before it is parsed; a field rejected by `u8::from_str_radix` (or empty,
per the `split.len() != 0` guard) yields `InvalidComponent`. -/
def fromStrGo : List (List Char) → List Nat → Except ParseMacAddrError (List Nat)
  | [], acc =>
      if acc.length = 6 then .ok acc else .error .TooFewComponents
  | f :: fs, acc =>
      if acc.length = 6 then .error .TooManyComponents
      else
        match fromStrRadix16 f with
        | some b => if f.length ≠ 0 then fromStrGo fs (acc ++ [b])
                    else .error .InvalidComponent
        | none => .error .InvalidComponent

/-- Strict MAC parsing (src/mac.rs `impl FromStr for MacAddr`): split on
`':'`, run the field loop, and on success build the `MacAddr` from the six
collected parts. -/
def MacAddr.from_str (s : List Char) : Except ParseMacAddrError MacAddr :=
  match fromStrGo (splitOnColon s) [] with
  | .ok parts =>
      .ok ⟨parts.getD 0 0, parts.getD 1 0, parts.getD 2 0,
           parts.getD 3 0, parts.getD 4 0, parts.getD 5 0⟩
  | .error e => .error e

/-- Lower-case hex digit character for a value `< 16` (as produced by
Rust's `{:02x}` formatting). -/
def hexChar (d : Nat) : Char :=
  if d < 10 then Char.ofNat ('0'.toNat + d)
  else Char.ofNat ('a'.toNat + (d - 10))

/-- Two-digit lower-case hex rendering of a `u8` value, as produced by
`format!("{:02x}", b)` for `b : u8` (a `u8` value always renders as
exactly two digits). -/
def toHex2 (n : Nat) : List Char :=
  [hexChar (n / 16), hexChar (n % 16)]

/-- Canonical colon-separated formatting (src/mac.rs `MacAddr::address`). -/
def MacAddr.address (m : MacAddr) : List Char :=
  toHex2 m.o0 ++ ':' :: toHex2 m.o1 ++ ':' :: toHex2 m.o2 ++
  ':' :: toHex2 m.o3 ++ ':' :: toHex2 m.o4 ++ ':' :: toHex2 m.o5

/-- Lenient MAC parsing (src/mac.rs `MacAddr::from_hex_format`).  A result
of `none` models the Rust panic: when the 17-character input contains
fewer than 6 colon-separated fields, the Rust code's `fields[1]` ..
`fields[5]` indexing goes out of bounds and panics.  Otherwise each field
is parsed with `u8::from_str_radix(_, 16).unwrap_or(0)`. -/
def MacAddr.from_hex_format (s : List Char) : Option MacAddr :=
  if s.length ≠ 17 then some MacAddr.zero
  else
    let fields := splitOnColon s
    if 6 ≤ fields.length then
      some ⟨(fromStrRadix16 (fields.getD 0 [])).getD 0,
            (fromStrRadix16 (fields.getD 1 [])).getD 0,
            (fromStrRadix16 (fields.getD 2 [])).getD 0,
            (fromStrRadix16 (fields.getD 3 [])).getD 0,
            (fromStrRadix16 (fields.getD 4 [])).getD 0,
            (fromStrRadix16 (fields.getD 5 [])).getD 0⟩
    else none

/-- Type of network interface (src/interface/types.rs `InterfaceType`),
with the 28 variants in their Rust declaration order. -/
inductive InterfaceType where
  | Unknown
  | Ethernet
  | TokenRing
  | Fddi
  | BasicIsdn
  | PrimaryIsdn
  | Ppp
  | Loopback
  | Ethernet3Megabit
  | Slip
  | Atm
  | GenericModem
  | FastEthernetT
  | Isdn
  | FastEthernetFx
  | Wireless80211
  | AsymmetricDsl
  | RateAdaptDsl
  | SymmetricDsl
  | VeryHighSpeedDsl
  | IPOverAtm
  | GigabitEthernet
  | Tunnel
  | MultiRateSymmetricDsl
  | HighPerformanceSerialBus
  | Wman
  | Wwanpp
  | Wwanpp2
deriving DecidableEq, Repr

namespace InterfaceType

/-- The variants in their declaration order (the order in which
`TryFrom<u32>` checks them). -/
def declOrder : List InterfaceType :=
  [Unknown, Ethernet, TokenRing, Fddi, BasicIsdn, PrimaryIsdn, Ppp, Loopback,
   Ethernet3Megabit, Slip, Atm, GenericModem, FastEthernetT, Isdn,
   FastEthernetFx, Wireless80211, AsymmetricDsl, RateAdaptDsl, SymmetricDsl,
   VeryHighSpeedDsl, IPOverAtm, GigabitEthernet, Tunnel, MultiRateSymmetricDsl,
   HighPerformanceSerialBus, Wman, Wwanpp, Wwanpp2]

/-- OS-specific value of `InterfaceType` for the Windows family
(src/interface/types.rs, `cfg(target_os = "windows")`). -/
def valueWindows : InterfaceType → Nat
  | Unknown => 1
  | Ethernet => 6
  | TokenRing => 9
  | Fddi => 15
  | BasicIsdn => 20
  | PrimaryIsdn => 21
  | Ppp => 23
  | Loopback => 24
  | Ethernet3Megabit => 26
  | Slip => 28
  | Atm => 37
  | GenericModem => 48
  | FastEthernetT => 62
  | Isdn => 63
  | FastEthernetFx => 69
  | Wireless80211 => 71
  | AsymmetricDsl => 94
  | RateAdaptDsl => 95
  | SymmetricDsl => 96
  | VeryHighSpeedDsl => 97
  | IPOverAtm => 114
  | GigabitEthernet => 117
  | Tunnel => 131
  | MultiRateSymmetricDsl => 143
  | HighPerformanceSerialBus => 144
  | Wman => 237
  | Wwanpp => 243
  | Wwanpp2 => 244

/-- OS-specific value of `InterfaceType` for the Linux family
(src/interface/types.rs, `cfg(target_os = "linux"/"android")`); the
catch-all arm maps every unlisted variant to `u32::MAX`. -/
def valueLinux : InterfaceType → Nat
  | Ethernet => 1
  | TokenRing => 4
  | Fddi => 774
  | Ppp => 512
  | Loopback => 772
  | Ethernet3Megabit => 2
  | Slip => 256
  | Atm => 19
  | Wireless80211 => 801
  | Tunnel => 768
  | _ => 4294967295

/-- OS-specific value of `InterfaceType` for the BSD family
(src/interface/types.rs, `cfg(macos/openbsd/freebsd/netbsd/ios)`):
every variant maps to 0. -/
def valueBsd : InterfaceType → Nat
  | _ => 0

/-- The `TryFrom<u32> for InterfaceType` match chain
(src/interface/types.rs): guards `x if x == Variant.value()` are checked
in declaration order and the first match wins; the platform-specific
`value` function is a parameter, since the Rust code is compiled against
exactly one of `valueWindows`/`valueLinux`/`valueBsd` per target. -/
def try_from (value : InterfaceType → Nat) (v : Nat) : Except Unit InterfaceType :=
  if v = value Unknown then .ok Unknown
  else if v = value Ethernet then .ok Ethernet
  else if v = value TokenRing then .ok TokenRing
  else if v = value Fddi then .ok Fddi
  else if v = value BasicIsdn then .ok BasicIsdn
  else if v = value PrimaryIsdn then .ok PrimaryIsdn
  else if v = value Ppp then .ok Ppp
  else if v = value Loopback then .ok Loopback
  else if v = value Ethernet3Megabit then .ok Ethernet3Megabit
  else if v = value Slip then .ok Slip
  else if v = value Atm then .ok Atm
  else if v = value GenericModem then .ok GenericModem
  else if v = value FastEthernetT then .ok FastEthernetT
  else if v = value Isdn then .ok Isdn
  else if v = value FastEthernetFx then .ok FastEthernetFx
  else if v = value Wireless80211 then .ok Wireless80211
  else if v = value AsymmetricDsl then .ok AsymmetricDsl
  else if v = value RateAdaptDsl then .ok RateAdaptDsl
  else if v = value SymmetricDsl then .ok SymmetricDsl
  else if v = value VeryHighSpeedDsl then .ok VeryHighSpeedDsl
  else if v = value IPOverAtm then .ok IPOverAtm
  else if v = value GigabitEthernet then .ok GigabitEthernet
  else if v = value Tunnel then .ok Tunnel
  else if v = value MultiRateSymmetricDsl then .ok MultiRateSymmetricDsl
  else if v = value HighPerformanceSerialBus then .ok HighPerformanceSerialBus
  else if v = value Wman then .ok Wman
  else if v = value Wwanpp then .ok Wwanpp
  else if v = value Wwanpp2 then .ok Wwanpp2
  else .error ()

/-- Specification-side lookup (spec §4.2): scan the variants in their
declaration order and return the first one whose platform value equals the
code, failing when none matches.  Stated with `List.find?` to compare
against the `try_from` match chain of the source. -/
def fromValueSpec (value : InterfaceType → Nat) (v : Nat) :
    Except Unit InterfaceType :=
  match declOrder.find? (fun u => v == value u) with
  | some t => .ok t
  | none => .error ()

end InterfaceType

/-- An IPv4 address: four `u8` octets (std::net::Ipv4Addr). -/
structure Ipv4Addr where
  a : Nat
  b : Nat
  c : Nat
  d : Nat
deriving DecidableEq, Repr

/-- An IPv6 address: eight 16-bit segments (std::net::Ipv6Addr). -/
structure Ipv6Addr where
  s0 : Nat
  s1 : Nat
  s2 : Nat
  s3 : Nat
  s4 : Nat
  s5 : Nat
  s6 : Nat
  s7 : Nat
deriving DecidableEq, Repr

/-- std::net::IpAddr: either an IPv4 or an IPv6 address. -/
inductive IpAddr where
  | V4 (a : Ipv4Addr)
  | V6 (a : Ipv6Addr)
deriving DecidableEq, Repr

/-- std::net::SocketAddr, as consumed by `sockaddr_to_network_addr`: an
IP address plus a port (only the IP part is extracted by the code). -/
inductive SocketAddr where
  | V4 (ip : Ipv4Addr) (port : Nat)
  | V6 (ip : Ipv6Addr) (port : Nat)
deriving DecidableEq, Repr

/-- Linux `libc::AF_PACKET`, the link-layer address family tag. -/
def AF_PACKET : Nat := 17

/-- A non-null `libc::sockaddr` as seen by `sockaddr_to_network_addr`
(Linux build): the address-family tag, and the 8-byte `sll_addr` array of
the `sockaddr_ll` view that the code reads when the family is
`AF_PACKET`. -/
structure Sockaddr where
  sa_family : Nat
  sll_addr : Fin 8 → Nat

/-- A decoder standing for `crate::sys::sockaddr_to_addr`, whose source is
outside src/ (it interprets the raw structure as an IPv4/IPv6 socket
address and fails otherwise); the definitions below are parameterized over
it, so every theorem holds for each of its possible behaviors. -/
def SockaddrDecoder : Type := Sockaddr → Except Unit SocketAddr

/-- src/interface/unix.rs `sockaddr_to_network_addr` (the
`cfg(linux/android)` version): `none` input models a null pointer; an
`AF_PACKET` family yields the MAC built from `sll_addr[0..=5]`; otherwise
the structure is handed to `sys::sockaddr_to_addr` and an `Ok` IPv4/IPv6
socket address yields its IP, while a decoding failure yields neither. -/
def sockaddr_to_network_addr (dec : SockaddrDecoder) (sa : Option Sockaddr) :
    Option MacAddr × Option IpAddr :=
  match sa with
  | none => (none, none)
  | some s =>
      if s.sa_family = AF_PACKET then
        (some ⟨s.sll_addr 0, s.sll_addr 1, s.sll_addr 2,
               s.sll_addr 3, s.sll_addr 4, s.sll_addr 5⟩, none)
      else
        match dec s with
        | .ok (.V4 ip _) => (none, some (.V4 ip))
        | .ok (.V6 ip _) => (none, some (.V6 ip))
        | .error _ => (none, none)

/-- The gateway record attached to an interface (modelled from the spec
§3: an optional address; its contents are never touched by the code under
verification). -/
structure Gateway where
  mac_addr : MacAddr
  ip_addr : IpAddr
deriving DecidableEq, Repr

/-- The `Interface` record as constructed by src/interface/unix.rs
(fields per the construction site and spec §3). -/
structure Interface where
  index : Nat
  name : String
  description : Option String
  mac_addr : Option MacAddr
  ipv4 : List Ipv4Addr
  ipv6 : List Ipv6Addr
  gateway : Option Gateway
deriving DecidableEq, Repr

/-- One node of the OS-supplied `ifaddrs` list: the decoded interface
name and the (possibly null) `ifa_addr` pointer. -/
structure IfAddrs where
  ifa_name : String
  ifa_addr : Option Sockaddr

/-- The `for iface in &mut ifaces` inner loop body of `unix_interfaces`:
when the record's name matches, overwrite `mac_addr` if a hardware address
was just resolved and append the resolved IPv4/IPv6 address to the
corresponding sequence; otherwise leave the interface untouched. -/
def mergeInto (macip : Option MacAddr × Option IpAddr) (rec : IfAddrs)
    (iface : Interface) : Interface :=
  if rec.ifa_name = iface.name then
    { iface with
      mac_addr := match macip.1 with
        | some m => some m
        | none => iface.mac_addr
      ipv4 := match macip.2 with
        | some (.V4 ip) => iface.ipv4 ++ [ip]
        | _ => iface.ipv4
      ipv6 := match macip.2 with
        | some (.V6 ip) => iface.ipv6 ++ [ip]
        | _ => iface.ipv6 }
  else iface

/-- The body of the `while !addr.is_null()` loop of `unix_interfaces` for
one `ifaddrs` node: resolve the record, merge into every accumulated
interface with the same name via `mergeInto`, and when none matched push
the candidate new `Interface` (index 0 placeholder, no description, no
gateway) seeded with whatever was resolved. -/
def processRecord (dec : SockaddrDecoder) (ifaces : List Interface)
    (rec : IfAddrs) : List Interface :=
  let macip := sockaddr_to_network_addr dec rec.ifa_addr
  let updated := ifaces.map (mergeInto macip rec)
  if ifaces.any fun iface => rec.ifa_name = iface.name then updated
  else
    updated ++ [{ index := 0
                  name := rec.ifa_name
                  description := none
                  mac_addr := macip.1
                  ipv4 := match macip.2 with
                    | some (.V4 ip) => [ip]
                    | _ => []
                  ipv6 := match macip.2 with
                    | some (.V6 ip) => [ip]
                    | _ => []
                  gateway := none }]

/-- src/interface/unix.rs `unix_interfaces`: `os` is the result of
`getifaddrs` (`none` models a nonzero return, upon which the empty vector
is returned); otherwise the node list is folded through `processRecord`
and a final pass stores `if_nametoindex` of each name (a total
`String → Nat` in C, returning 0 on failure) into `index`. -/
def unix_interfaces (dec : SockaddrDecoder) (os : Option (List IfAddrs))
    (nameToIndex : String → Nat) : List Interface :=
  match os with
  | none => []
  | some records =>
      ((records.foldl (processRecord dec) []).map fun iface =>
        { iface with index := nameToIndex iface.name })

/-! ### Theorems -/

/-- C2: the claim says `from_hex_format` is total and never panics, in
particular on 17-character strings containing fewer than 6 colon-separated
fields.  Evaluating the code at such an input shows the opposite: the
17-character colon-free string of seventeen 'a's produces exactly one
field, and the code's `fields[1]` indexing goes out of bounds (modelled as
`none`), i.e. the Rust code panics there. -/
theorem from_hex_format_panics_on_17char_single_field :
    MacAddr.from_hex_format (String.toList "aaaaaaaaaaaaaaaaa") = none ∧
    (String.toList "aaaaaaaaaaaaaaaaa").length = 17 ∧
    (splitOnColon (String.toList "aaaaaaaaaaaaaaaaa")).length = 1 := by
  decide

/-- C3 counterexample: `"aa:bb:cc:dd:ee:gg"` is malformed (its last field
`"gg"` is not parsable hex), yet `from_hex_format` returns
`aa:bb:cc:dd:ee:00` — only the bad octet is zeroed, not the whole
address, refuting the claim that every malformed input yields the all-zero
address. -/
theorem from_hex_format_not_zero_on_bad_byte :
    MacAddr.from_hex_format (String.toList "aa:bb:cc:dd:ee:gg") =
      some ⟨0xaa, 0xbb, 0xcc, 0xdd, 0xee, 0⟩ ∧
    fromStrRadix16 (String.toList "gg") = none ∧
    (⟨0xaa, 0xbb, 0xcc, 0xdd, 0xee, 0⟩ : MacAddr) ≠ MacAddr.zero := by
  decide

/-- C3 (amended): an input of wrong length (≠ 17) yields the zero address;
for a 17-character input that does not panic (at least 6 fields), each
octet of the result is the parse of the corresponding field with 0
substituted for an unparsable field — a bad field zeroes only its own
octet. -/
theorem from_hex_format_amended :
    (∀ s : List Char, s.length ≠ 17 →
      MacAddr.from_hex_format s = some MacAddr.zero) ∧
    (∀ (s : List Char) (m : MacAddr) (i : Nat),
      MacAddr.from_hex_format s = some m → s.length = 17 → i < 6 →
      m.octets.getD i 0 = (fromStrRadix16 ((splitOnColon s).getD i [])).getD 0) := by
  constructor
  · intro s h
    simp [MacAddr.from_hex_format, h]
  · intro s m i h hlen hi
    simp only [MacAddr.from_hex_format, hlen, ne_eq, not_true_eq_false,
      if_false, ite_not] at h
    split at h
    · injection h with h2
      subst h2
      interval_cases i <;> rfl
    · exact absurd h (by simp)

/-- C3 witness: the amended theorem applied at a wrong-length input and at
octet 5 of the parse of `"aa:bb:cc:dd:ee:gg"`. -/
theorem from_hex_format_amended_witness :
    MacAddr.from_hex_format (String.toList "ab") = some MacAddr.zero ∧
    (MacAddr.mk 0xaa 0xbb 0xcc 0xdd 0xee 0).octets.getD 5 0 =
      (fromStrRadix16 ((splitOnColon (String.toList "aa:bb:cc:dd:ee:gg")).getD 5 [])).getD 0 :=
  ⟨from_hex_format_amended.1 _ (by decide),
   from_hex_format_amended.2 _ _ 5 (by decide) (by decide) (by decide)⟩

/-- C9: `unix_interfaces` never returns an error value (its result type is
a plain list), and when `getifaddrs` reports failure (modelled by `none`)
it returns the empty list, for every decoder and every name-to-index
function. -/
theorem unix_interfaces_empty_on_os_failure (dec : SockaddrDecoder)
    (nameToIndex : String → Nat) :
    unix_interfaces dec none nameToIndex = [] := rfl

/-- C7: `sockaddr_to_network_addr` never populates both components: a null
pointer yields `(none, none)`; an `AF_PACKET` family yields the hardware
address only; a successful IPv4/IPv6 decode yields the IP only; a decode
failure yields `(none, none)` — for every possible behavior of the
external `sys::sockaddr_to_addr` decoder. -/
theorem sockaddr_to_network_addr_exclusive (dec : SockaddrDecoder)
    (sa : Option Sockaddr) :
    (¬((sockaddr_to_network_addr dec sa).1.isSome ∧
       (sockaddr_to_network_addr dec sa).2.isSome)) ∧
    (sa = none → sockaddr_to_network_addr dec sa = (none, none)) ∧
    (∀ s, sa = some s → s.sa_family = AF_PACKET →
      sockaddr_to_network_addr dec sa =
        (some ⟨s.sll_addr 0, s.sll_addr 1, s.sll_addr 2,
               s.sll_addr 3, s.sll_addr 4, s.sll_addr 5⟩, none)) ∧
    (∀ s ip p, sa = some s → s.sa_family ≠ AF_PACKET → dec s = .ok (.V4 ip p) →
      sockaddr_to_network_addr dec sa = (none, some (.V4 ip))) ∧
    (∀ s ip p, sa = some s → s.sa_family ≠ AF_PACKET → dec s = .ok (.V6 ip p) →
      sockaddr_to_network_addr dec sa = (none, some (.V6 ip))) ∧
    (∀ s e, sa = some s → s.sa_family ≠ AF_PACKET → dec s = .error e →
      sockaddr_to_network_addr dec sa = (none, none)) := by
  refine ⟨?_, ?_, ?_, ?_, ?_, ?_⟩
  · cases sa with
    | none => simp [sockaddr_to_network_addr]
    | some s =>
      by_cases hf : s.sa_family = AF_PACKET
      · simp [sockaddr_to_network_addr, hf]
      · cases hd : dec s with
        | ok a => cases a <;> simp [sockaddr_to_network_addr, hf, hd]
        | error e => simp [sockaddr_to_network_addr, hf, hd]
  · rintro rfl; rfl
  · rintro s rfl hf
    simp [sockaddr_to_network_addr, hf]
  · rintro s ip p rfl hf hd
    simp [sockaddr_to_network_addr, hf, hd]
  · rintro s ip p rfl hf hd
    simp [sockaddr_to_network_addr, hf, hd]
  · rintro s e rfl hf hd
    simp [sockaddr_to_network_addr, hf, hd]

/-- C7 witness: the exclusivity theorem applied at concrete inputs — a
null pointer, an `AF_PACKET` record, a record a concrete decoder reads as
an IPv4 socket address, and a record it fails on. -/
theorem sockaddr_to_network_addr_exclusive_witness :
    sockaddr_to_network_addr (fun _ => .error ()) none = (none, none) ∧
    sockaddr_to_network_addr (fun _ => .error ())
        (some ⟨17, fun i => i.val⟩) =
      (some ⟨0, 1, 2, 3, 4, 5⟩, none) ∧
    sockaddr_to_network_addr (fun _ => .ok (.V4 ⟨192, 168, 0, 1⟩ 0))
        (some ⟨2, fun _ => 0⟩) =
      (none, some (.V4 ⟨192, 168, 0, 1⟩)) ∧
    sockaddr_to_network_addr (fun _ => .error ()) (some ⟨2, fun _ => 0⟩) =
      (none, none) :=
  ⟨(sockaddr_to_network_addr_exclusive (fun _ => .error ()) none).2.1 rfl,
   (sockaddr_to_network_addr_exclusive (fun _ => .error ())
      (some ⟨17, fun i => i.val⟩)).2.2.1 _ rfl rfl,
   (sockaddr_to_network_addr_exclusive (fun _ => .ok (.V4 ⟨192, 168, 0, 1⟩ 0))
      (some ⟨2, fun _ => 0⟩)).2.2.2.1 _ _ 0 rfl (by decide) rfl,
   (sockaddr_to_network_addr_exclusive (fun _ => .error ())
      (some ⟨2, fun _ => 0⟩)).2.2.2.2.2 _ () rfl (by decide) rfl⟩

/-- Merging a record into an interface never changes its name. -/
theorem mergeInto_name (macip : Option MacAddr × Option IpAddr) (rec : IfAddrs)
    (iface : Interface) : (mergeInto macip rec iface).name = iface.name := by
  unfold mergeInto; split <;> rfl

/-- Merging leaves an interface with a different name untouched. -/
theorem mergeInto_of_ne (macip : Option MacAddr × Option IpAddr) (rec : IfAddrs)
    (iface : Interface) (h : ¬rec.ifa_name = iface.name) :
    mergeInto macip rec iface = iface := by
  simp [mergeInto, h]

/-- The merge pass preserves the list of interface names. -/
theorem map_name_map_mergeInto (macip : Option MacAddr × Option IpAddr)
    (rec : IfAddrs) (l : List Interface) :
    (l.map (mergeInto macip rec)).map Interface.name = l.map Interface.name := by
  induction l with
  | nil => rfl
  | cons a t ih => simp [mergeInto_name, ih]

/-- The name list of `processRecord`'s result: unchanged when the record's
name was already present, extended by that name otherwise. -/
theorem processRecord_names (dec : SockaddrDecoder) (ifaces : List Interface)
    (rec : IfAddrs) :
    (processRecord dec ifaces rec).map Interface.name =
      if ifaces.any fun iface => rec.ifa_name = iface.name then
        ifaces.map Interface.name
      else ifaces.map Interface.name ++ [rec.ifa_name] := by
  unfold processRecord
  split <;> simp [map_name_map_mergeInto, mergeInto_name]

/-- The enumeration fold keeps interface names pairwise distinct from any
accumulator whose names already are. -/
theorem foldl_processRecord_names_nodup (dec : SockaddrDecoder)
    (records : List IfAddrs) :
    ∀ acc : List Interface, (acc.map Interface.name).Nodup →
      ((records.foldl (processRecord dec) acc).map Interface.name).Nodup := by
  induction records with
  | nil => exact fun acc h => h
  | cons r rs ih =>
    intro acc h
    rw [List.foldl_cons]
    apply ih
    rw [processRecord_names]
    split
    · exact h
    · rename_i hany
      simp only [List.any_eq_true, decide_eq_true_eq, not_exists, not_and] at hany
      have hnotin : r.ifa_name ∉ acc.map Interface.name := by
        intro hmem
        rcases List.mem_map.mp hmem with ⟨iface, hif, heq⟩
        exact hany iface hif heq.symm
      refine List.Nodup.append h (List.nodup_singleton _) ?_
      intro x hx hx2
      rw [List.mem_singleton] at hx2
      subst hx2
      exact hnotin hx

/-- The final index-resolution pass preserves the list of names. -/
theorem map_name_index_update (f : String → Nat) (l : List Interface) :
    ((l.map fun iface => { iface with index := f iface.name }).map Interface.name) =
      l.map Interface.name := by
  induction l with
  | nil => rfl
  | cons a t ih => simp [ih]

/-- C5: merge-key uniqueness — at every point during the enumeration fold
(i.e., after any prefix of the record list) and in the final result of
`unix_interfaces`, the accumulated interfaces have pairwise-distinct
names. -/
theorem merge_key_uniqueness (dec : SockaddrDecoder) (records : List IfAddrs)
    (n : Nat) (nameToIndex : String → Nat) :
    ((((records.take n).foldl (processRecord dec) []).map Interface.name).Nodup) ∧
    (((unix_interfaces dec (some records) nameToIndex).map Interface.name).Nodup) := by
  constructor
  · exact foldl_processRecord_names_nodup dec _ [] (by simp)
  · show (((records.foldl (processRecord dec) []).map
        (fun iface => { iface with index := nameToIndex iface.name })).map
          Interface.name).Nodup
    rw [map_name_index_update]
    exact foldl_processRecord_names_nodup dec _ [] (by simp)

/-- One merge appends (possibly nothing) to both IP sequences of every
interface; nothing is ever removed or rewritten in place. -/
theorem mergeInto_append_only (macip : Option MacAddr × Option IpAddr)
    (rec : IfAddrs) (iface : Interface) :
    (∃ t, (mergeInto macip rec iface).ipv4 = iface.ipv4 ++ t) ∧
    (∃ t, (mergeInto macip rec iface).ipv6 = iface.ipv6 ++ t) := by
  unfold mergeInto
  split
  · constructor
    · cases h2 : macip.2 with
      | none => exact ⟨[], by simp [h2]⟩
      | some ip =>
        cases ip with
        | V4 a => exact ⟨[a], by simp [h2]⟩
        | V6 a => exact ⟨[], by simp [h2]⟩
    · cases h2 : macip.2 with
      | none => exact ⟨[], by simp [h2]⟩
      | some ip =>
        cases ip with
        | V4 a => exact ⟨[], by simp [h2]⟩
        | V6 a => exact ⟨[a], by simp [h2]⟩
  · exact ⟨⟨[], by simp⟩, ⟨[], by simp⟩⟩

/-- A pointwise relation between a list and its image. -/
theorem forall2_map {α β : Type} (r : α → β → Prop) (g : α → β) (l : List α)
    (h : ∀ x ∈ l, r x (g x)) : List.Forall₂ r l (l.map g) := by
  induction l with
  | nil => exact .nil
  | cons a t ih =>
    exact .cons (h a (by simp)) (ih fun x hx => h x (by simp [hx]))

/-- The first `ifaces.length` entries of `processRecord`'s result are
exactly the merged images of the input interfaces. -/
theorem processRecord_take (dec : SockaddrDecoder) (ifaces : List Interface)
    (rec : IfAddrs) :
    (processRecord dec ifaces rec).take ifaces.length =
      ifaces.map (mergeInto (sockaddr_to_network_addr dec rec.ifa_addr) rec) := by
  unfold processRecord
  split
  · rw [← List.length_map ifaces
      (mergeInto (sockaddr_to_network_addr dec rec.ifa_addr) rec), List.take_length]
  · rw [← List.length_map ifaces
      (mergeInto (sockaddr_to_network_addr dec rec.ifa_addr) rec), List.take_left]

/-- C6: no deduplication of IP addresses.  Feeding the same IPv4-tagged
(resp. IPv6-tagged) record twice for one name yields a single interface
whose `ipv4` (resp. `ipv6`) holds two identical entries; and in every
merge step, each pre-existing interface's `ipv4` and `ipv6` sequences only
grow by appending a suffix. -/
theorem ip_sequences_no_dedup (dec : SockaddrDecoder) :
    (∀ (nm : String) (sa : Sockaddr) (ip : Ipv4Addr) (p : Nat),
      sa.sa_family ≠ AF_PACKET → dec sa = .ok (.V4 ip p) →
      [(⟨nm, some sa⟩ : IfAddrs), ⟨nm, some sa⟩].foldl (processRecord dec) [] =
        [{ index := 0, name := nm, description := none, mac_addr := none,
           ipv4 := [ip, ip], ipv6 := [], gateway := none }]) ∧
    (∀ (nm : String) (sa : Sockaddr) (ip : Ipv6Addr) (p : Nat),
      sa.sa_family ≠ AF_PACKET → dec sa = .ok (.V6 ip p) →
      [(⟨nm, some sa⟩ : IfAddrs), ⟨nm, some sa⟩].foldl (processRecord dec) [] =
        [{ index := 0, name := nm, description := none, mac_addr := none,
           ipv4 := [], ipv6 := [ip, ip], gateway := none }]) ∧
    (∀ (ifaces : List Interface) (rec : IfAddrs),
      List.Forall₂
        (fun old new => (∃ t, new.ipv4 = old.ipv4 ++ t) ∧
                        (∃ t, new.ipv6 = old.ipv6 ++ t))
        ifaces ((processRecord dec ifaces rec).take ifaces.length)) := by
  refine ⟨?_, ?_, ?_⟩
  · intro nm sa ip p hf hd
    simp [processRecord, mergeInto, sockaddr_to_network_addr, hf, hd]
  · intro nm sa ip p hf hd
    simp [processRecord, mergeInto, sockaddr_to_network_addr, hf, hd]
  · intro ifaces rec
    rw [processRecord_take]
    exact forall2_map _ _ _ fun x _ => mergeInto_append_only _ _ x

/-- C6 witness: the duplicate-entry parts of the theorem applied with a
concrete decoder and concrete IPv4- and IPv6-carrying records. -/
theorem ip_sequences_no_dedup_witness :
    [(⟨"eth0", some ⟨2, fun _ => 0⟩⟩ : IfAddrs), ⟨"eth0", some ⟨2, fun _ => 0⟩⟩].foldl
        (processRecord fun _ => .ok (.V4 ⟨192, 168, 0, 1⟩ 0)) [] =
      [{ index := 0, name := "eth0", description := none, mac_addr := none,
         ipv4 := [⟨192, 168, 0, 1⟩, ⟨192, 168, 0, 1⟩], ipv6 := [],
         gateway := none }] ∧
    [(⟨"eth0", some ⟨10, fun _ => 0⟩⟩ : IfAddrs), ⟨"eth0", some ⟨10, fun _ => 0⟩⟩].foldl
        (processRecord fun _ => .ok (.V6 ⟨0, 0, 0, 0, 0, 0, 0, 1⟩ 0)) [] =
      [{ index := 0, name := "eth0", description := none, mac_addr := none,
         ipv4 := [], ipv6 := [⟨0, 0, 0, 0, 0, 0, 0, 1⟩, ⟨0, 0, 0, 0, 0, 0, 0, 1⟩],
         gateway := none }] :=
  ⟨(ip_sequences_no_dedup _).1 "eth0" _ _ 0 (by decide) rfl,
   (ip_sequences_no_dedup _).2.1 "eth0" _ _ 0 (by decide) rfl⟩

/-- `getD` commutes with `map` at in-range indices. -/
theorem getD_map_of_lt {α β : Type} (g : α → β) (l : List α) (i : Nat)
    (d : α) (h : i < l.length) : (l.map g).getD i (g d) = g (l.getD i d) := by
  induction l generalizing i with
  | nil => simp at h
  | cons a t ih =>
    cases i with
    | zero => rfl
    | succ n =>
      simp only [List.map_cons, List.getD_cons_succ]
      exact ih n (Nat.lt_of_succ_lt_succ h)

/-- C10: frame property of one merge step.  When the record's name is
already present, the result has the same length (nothing is pushed), and
at every position the interface keeps its name, index, description and
gateway; a position with a different name is completely unchanged, and a
position with the matching name changes `mac_addr` only if a hardware
address was resolved, appends exactly the resolved IPv4 (resp. IPv6)
address to `ipv4` (resp. `ipv6`) and leaves the other sequence unchanged,
or leaves both unchanged when no IP was resolved. -/
theorem merge_frame (dec : SockaddrDecoder) (ifaces : List Interface)
    (rec : IfAddrs) (res : List Interface) (macip : Option MacAddr × Option IpAddr)
    (hres : res = processRecord dec ifaces rec)
    (hmac : macip = sockaddr_to_network_addr dec rec.ifa_addr)
    (hfound : rec.ifa_name ∈ ifaces.map Interface.name) :
    res.length = ifaces.length ∧
    (∀ (i : Nat) (d : Interface), i < ifaces.length →
      (res.getD i (mergeInto macip rec d)).name = (ifaces.getD i d).name ∧
      (res.getD i (mergeInto macip rec d)).index = (ifaces.getD i d).index ∧
      (res.getD i (mergeInto macip rec d)).description = (ifaces.getD i d).description ∧
      (res.getD i (mergeInto macip rec d)).gateway = (ifaces.getD i d).gateway ∧
      ((ifaces.getD i d).name ≠ rec.ifa_name →
        res.getD i (mergeInto macip rec d) = ifaces.getD i d) ∧
      ((ifaces.getD i d).name = rec.ifa_name →
        (macip.1 = none →
          (res.getD i (mergeInto macip rec d)).mac_addr = (ifaces.getD i d).mac_addr) ∧
        (∀ m, macip.1 = some m →
          (res.getD i (mergeInto macip rec d)).mac_addr = some m) ∧
        (macip.2 = none →
          (res.getD i (mergeInto macip rec d)).ipv4 = (ifaces.getD i d).ipv4 ∧
          (res.getD i (mergeInto macip rec d)).ipv6 = (ifaces.getD i d).ipv6) ∧
        (∀ ip, macip.2 = some (.V4 ip) →
          (res.getD i (mergeInto macip rec d)).ipv4 = (ifaces.getD i d).ipv4 ++ [ip] ∧
          (res.getD i (mergeInto macip rec d)).ipv6 = (ifaces.getD i d).ipv6) ∧
        (∀ ip, macip.2 = some (.V6 ip) →
          (res.getD i (mergeInto macip rec d)).ipv6 = (ifaces.getD i d).ipv6 ++ [ip] ∧
          (res.getD i (mergeInto macip rec d)).ipv4 = (ifaces.getD i d).ipv4))) := by
  have hany : (ifaces.any fun iface => rec.ifa_name = iface.name) = true := by
    simp only [List.any_eq_true, decide_eq_true_eq]
    rcases List.mem_map.mp hfound with ⟨iface, hif, heq⟩
    exact ⟨iface, hif, heq.symm⟩
  have hres' : res = ifaces.map (mergeInto macip rec) := by
    rw [hres]
    unfold processRecord
    rw [if_pos hany, hmac]
  subst hres'
  refine ⟨by simp, ?_⟩
  intro i d hlt
  rw [getD_map_of_lt _ _ _ _ hlt]
  set old := ifaces.getD i d with hold
  unfold mergeInto
  by_cases hn : rec.ifa_name = old.name
  · rw [if_pos hn]
    refine ⟨rfl, rfl, rfl, rfl, fun hne => absurd hn.symm hne, fun _ => ?_⟩
    refine ⟨?_, ?_, ?_, ?_, ?_⟩
    · intro h1; simp [h1]
    · intro m h1; simp [h1]
    · intro h2; simp [h2]
    · intro ip h2; simp [h2]
    · intro ip h2; simp [h2]
  · rw [if_neg hn]
    exact ⟨rfl, rfl, rfl, rfl, fun _ => rfl,
      fun heq => absurd heq.symm hn⟩

/-- C10 witness: the frame theorem applied to a one-interface accumulator
and a same-name record carrying a null address pointer. -/
theorem merge_frame_witness :
    (processRecord (fun _ => .error ()) [⟨7, "lo", none, none, [], [], none⟩]
        ⟨"lo", none⟩).length = 1 ∧
    ((processRecord (fun _ => .error ()) [⟨7, "lo", none, none, [], [], none⟩]
        ⟨"lo", none⟩).getD 0
      (mergeInto (none, none) ⟨"lo", none⟩ ⟨0, "", none, none, [], [], none⟩)).mac_addr =
      none := by
  have h := merge_frame (fun _ => .error ())
    [⟨7, "lo", none, none, [], [], none⟩] ⟨"lo", none⟩ _ (none, none) rfl rfl
    (by simp)
  refine ⟨h.1, ?_⟩
  have h2 := (h.2 0 ⟨0, "", none, none, [], [], none⟩ (by decide)).2.2.2.2.2
  have h3 := (h2 (by decide)).1 rfl
  rw [h3]
  rfl

/-- The source's `TryFrom` match chain coincides with the spec-side
first-match scan of the declaration order, for every platform `value`
function and every code. -/
theorem try_from_eq_fromValueSpec (value : InterfaceType → Nat) (v : Nat) :
    InterfaceType.try_from value v = InterfaceType.fromValueSpec value v := by
  unfold InterfaceType.try_from InterfaceType.fromValueSpec InterfaceType.declOrder
  by_cases h1 : v = value .Unknown
  · rw [List.find?_cons_of_pos _ (by simp [h1]), if_pos h1]
  · rw [List.find?_cons_of_neg _ (by simp [h1]), if_neg h1]
    by_cases h2 : v = value .Ethernet
    · rw [List.find?_cons_of_pos _ (by simp [h2]), if_pos h2]
    · rw [List.find?_cons_of_neg _ (by simp [h2]), if_neg h2]
      by_cases h3 : v = value .TokenRing
      · rw [List.find?_cons_of_pos _ (by simp [h3]), if_pos h3]
      · rw [List.find?_cons_of_neg _ (by simp [h3]), if_neg h3]
        by_cases h4 : v = value .Fddi
        · rw [List.find?_cons_of_pos _ (by simp [h4]), if_pos h4]
        · rw [List.find?_cons_of_neg _ (by simp [h4]), if_neg h4]
          by_cases h5 : v = value .BasicIsdn
          · rw [List.find?_cons_of_pos _ (by simp [h5]), if_pos h5]
          · rw [List.find?_cons_of_neg _ (by simp [h5]), if_neg h5]
            by_cases h6 : v = value .PrimaryIsdn
            · rw [List.find?_cons_of_pos _ (by simp [h6]), if_pos h6]
            · rw [List.find?_cons_of_neg _ (by simp [h6]), if_neg h6]
              by_cases h7 : v = value .Ppp
              · rw [List.find?_cons_of_pos _ (by simp [h7]), if_pos h7]
              · rw [List.find?_cons_of_neg _ (by simp [h7]), if_neg h7]
                by_cases h8 : v = value .Loopback
                · rw [List.find?_cons_of_pos _ (by simp [h8]), if_pos h8]
                · rw [List.find?_cons_of_neg _ (by simp [h8]), if_neg h8]
                  by_cases h9 : v = value .Ethernet3Megabit
                  · rw [List.find?_cons_of_pos _ (by simp [h9]), if_pos h9]
                  · rw [List.find?_cons_of_neg _ (by simp [h9]), if_neg h9]
                    by_cases h10 : v = value .Slip
                    · rw [List.find?_cons_of_pos _ (by simp [h10]), if_pos h10]
                    · rw [List.find?_cons_of_neg _ (by simp [h10]), if_neg h10]
                      by_cases h11 : v = value .Atm
                      · rw [List.find?_cons_of_pos _ (by simp [h11]), if_pos h11]
                      · rw [List.find?_cons_of_neg _ (by simp [h11]), if_neg h11]
                        by_cases h12 : v = value .GenericModem
                        · rw [List.find?_cons_of_pos _ (by simp [h12]), if_pos h12]
                        · rw [List.find?_cons_of_neg _ (by simp [h12]), if_neg h12]
                          by_cases h13 : v = value .FastEthernetT
                          · rw [List.find?_cons_of_pos _ (by simp [h13]), if_pos h13]
                          · rw [List.find?_cons_of_neg _ (by simp [h13]), if_neg h13]
                            by_cases h14 : v = value .Isdn
                            · rw [List.find?_cons_of_pos _ (by simp [h14]), if_pos h14]
                            · rw [List.find?_cons_of_neg _ (by simp [h14]), if_neg h14]
                              by_cases h15 : v = value .FastEthernetFx
                              · rw [List.find?_cons_of_pos _ (by simp [h15]), if_pos h15]
                              · rw [List.find?_cons_of_neg _ (by simp [h15]), if_neg h15]
                                by_cases h16 : v = value .Wireless80211
                                · rw [List.find?_cons_of_pos _ (by simp [h16]), if_pos h16]
                                · rw [List.find?_cons_of_neg _ (by simp [h16]), if_neg h16]
                                  by_cases h17 : v = value .AsymmetricDsl
                                  · rw [List.find?_cons_of_pos _ (by simp [h17]), if_pos h17]
                                  · rw [List.find?_cons_of_neg _ (by simp [h17]), if_neg h17]
                                    by_cases h18 : v = value .RateAdaptDsl
                                    · rw [List.find?_cons_of_pos _ (by simp [h18]), if_pos h18]
                                    · rw [List.find?_cons_of_neg _ (by simp [h18]), if_neg h18]
                                      by_cases h19 : v = value .SymmetricDsl
                                      · rw [List.find?_cons_of_pos _ (by simp [h19]), if_pos h19]
                                      · rw [List.find?_cons_of_neg _ (by simp [h19]), if_neg h19]
                                        by_cases h20 : v = value .VeryHighSpeedDsl
                                        · rw [List.find?_cons_of_pos _ (by simp [h20]), if_pos h20]
                                        · rw [List.find?_cons_of_neg _ (by simp [h20]), if_neg h20]
                                          by_cases h21 : v = value .IPOverAtm
                                          · rw [List.find?_cons_of_pos _ (by simp [h21]), if_pos h21]
                                          · rw [List.find?_cons_of_neg _ (by simp [h21]), if_neg h21]
                                            by_cases h22 : v = value .GigabitEthernet
                                            · rw [List.find?_cons_of_pos _ (by simp [h22]), if_pos h22]
                                            · rw [List.find?_cons_of_neg _ (by simp [h22]), if_neg h22]
                                              by_cases h23 : v = value .Tunnel
                                              · rw [List.find?_cons_of_pos _ (by simp [h23]), if_pos h23]
                                              · rw [List.find?_cons_of_neg _ (by simp [h23]), if_neg h23]
                                                by_cases h24 : v = value .MultiRateSymmetricDsl
                                                · rw [List.find?_cons_of_pos _ (by simp [h24]), if_pos h24]
                                                · rw [List.find?_cons_of_neg _ (by simp [h24]), if_neg h24]
                                                  by_cases h25 : v = value .HighPerformanceSerialBus
                                                  · rw [List.find?_cons_of_pos _ (by simp [h25]), if_pos h25]
                                                  · rw [List.find?_cons_of_neg _ (by simp [h25]), if_neg h25]
                                                    by_cases h26 : v = value .Wman
                                                    · rw [List.find?_cons_of_pos _ (by simp [h26]), if_pos h26]
                                                    · rw [List.find?_cons_of_neg _ (by simp [h26]), if_neg h26]
                                                      by_cases h27 : v = value .Wwanpp
                                                      · rw [List.find?_cons_of_pos _ (by simp [h27]), if_pos h27]
                                                      · rw [List.find?_cons_of_neg _ (by simp [h27]), if_neg h27]
                                                        by_cases h28 : v = value .Wwanpp2
                                                        · rw [List.find?_cons_of_pos _ (by simp [h28]), if_pos h28]
                                                        · rw [List.find?_cons_of_neg _ (by simp [h28]), if_neg h28, List.find?_nil]

/-- Every variant occurs in the declaration order list. -/
theorem mem_declOrder (t : InterfaceType) : t ∈ InterfaceType.declOrder := by
  cases t <;> simp [InterfaceType.declOrder]

/-- A first-match scan finds a member whose value is unique. -/
theorem find_first_unique (value : InterfaceType → Nat) (t : InterfaceType)
    (l : List InterfaceType) (ht : t ∈ l)
    (hu : ∀ u, value u = value t → u = t) :
    l.find? (fun u => value t == value u) = some t := by
  induction l with
  | nil => cases ht
  | cons a rest ih =>
    by_cases h : value t = value a
    · have ha : a = t := hu a h.symm
      subst ha
      exact List.find?_cons_of_pos _ (by simp)
    · rw [List.find?_cons_of_neg _ (by simp [h])]
      apply ih
      rcases List.mem_cons.mp ht with rfl | h2
      · exact absurd rfl h
      · exact h2

/-- C8: `try_from` is a deterministic first-match inverse of `value`: it
equals the spec-side first-match scan of the declaration order for every
platform value function; it errs exactly when no variant's value matches;
round-tripping holds for every variant with a unique value; and on the
Linux table, where `Unknown` and `BasicIsdn` share the `u32::MAX`
sentinel, the first-declared variant (`Unknown`) wins. -/
theorem try_from_first_match :
    (∀ (value : InterfaceType → Nat) (v : Nat),
      InterfaceType.try_from value v = InterfaceType.fromValueSpec value v) ∧
    (∀ (value : InterfaceType → Nat) (v : Nat),
      InterfaceType.try_from value v = .error () ↔ ∀ t, value t ≠ v) ∧
    (∀ (value : InterfaceType → Nat) (t : InterfaceType),
      (∀ u, value u = value t → u = t) →
      InterfaceType.try_from value (value t) = .ok t) ∧
    (InterfaceType.try_from InterfaceType.valueLinux 4294967295 = .ok .Unknown ∧
     InterfaceType.valueLinux .Unknown = InterfaceType.valueLinux .BasicIsdn ∧
     (InterfaceType.Unknown ≠ .BasicIsdn)) := by
  refine ⟨try_from_eq_fromValueSpec, ?_, ?_, by decide⟩
  · intro value v
    rw [try_from_eq_fromValueSpec]
    unfold InterfaceType.fromValueSpec
    cases h : InterfaceType.declOrder.find? (fun u => v == value u) with
    | some u =>
      have hp := List.find?_some h
      simp only [beq_iff_eq] at hp
      simp only [reduceCtorEq, false_iff, not_forall, ne_eq, not_not]
      exact ⟨u, hp.symm⟩
    | none =>
      have hall := List.find?_eq_none.mp h
      simp only [true_iff]
      intro t
      have := hall t (mem_declOrder t)
      simp only [beq_iff_eq] at this
      exact fun hv => this hv.symm
  · intro value t hu
    rw [try_from_eq_fromValueSpec]
    unfold InterfaceType.fromValueSpec
    rw [find_first_unique value t InterfaceType.declOrder (mem_declOrder t) hu]

/-- C8 witness: the round-trip part applied to `Ethernet` on the Windows
table, where its code 6 is unique. -/
theorem try_from_first_match_witness :
    InterfaceType.try_from InterfaceType.valueWindows
        (InterfaceType.valueWindows .Ethernet) = .ok .Ethernet :=
  try_from_first_match.2.2.1 InterfaceType.valueWindows .Ethernet
    (by intro u h; revert h; cases u <;> decide)

/-- A field accepted by `u8::from_str_radix` is nonempty. -/
theorem fromStrRadix16_ne_nil {f : List Char} {b : Nat}
    (h : fromStrRadix16 f = some b) : f.length ≠ 0 := by
  cases f with
  | nil => exact absurd h (by simp [fromStrRadix16])
  | cons c t => simp

/-- The checked accumulation loop never exceeds the `u8` range. -/
theorem hexAccum_le (l : List Char) : ∀ acc r, acc ≤ 255 →
    hexAccum acc l = some r → r ≤ 255 := by
  induction l with
  | nil =>
    intro acc r h hr
    simp only [hexAccum, Option.some.injEq] at hr
    omega
  | cons c t ih =>
    intro acc r h hr
    unfold hexAccum at hr
    cases hd : hexDigitVal c with
    | none => rw [hd] at hr; cases hr
    | some d =>
      rw [hd] at hr
      replace hr : (if acc * 16 + d ≤ 255 then hexAccum (acc * 16 + d) t
          else none) = some r := hr
      by_cases hle : acc * 16 + d ≤ 255
      · rw [if_pos hle] at hr
        exact ih _ _ hle hr
      · rw [if_neg hle] at hr
        cases hr

/-- The digit-run stage of `fromStrRadix16` stays in the `u8` range. -/
theorem hexAccum_stage_le (digits : List Char) (b : Nat)
    (h : (match digits with
          | [] => (none : Option Nat)
          | _ => hexAccum 0 digits) = some b) : b ≤ 255 := by
  cases digits with
  | nil => exact Option.noConfusion h
  | cons c t => exact hexAccum_le _ 0 b (by omega) h

/-- A parsed `u8` field value is at most 255. -/
theorem fromStrRadix16_le {f : List Char} {b : Nat}
    (h : fromStrRadix16 f = some b) : b ≤ 255 := by
  unfold fromStrRadix16 at h
  split at h
  · exact hexAccum_stage_le _ _ h
  · exact hexAccum_stage_le _ _ h

/-- `hexDigitVal` inverts `hexChar` on digit values. -/
theorem hexDigitVal_hexChar (d : Nat) (h : d < 16) :
    hexDigitVal (hexChar d) = some d := by
  interval_cases d <;> decide

/-- A hex digit character is never the separator. -/
theorem hexChar_ne_colon (d : Nat) (h : d < 16) : hexChar d ≠ ':' := by
  interval_cases d <;> decide

/-- A hex digit character is never a sign. -/
theorem hexChar_ne_plus (d : Nat) (h : d < 16) : hexChar d ≠ '+' := by
  interval_cases d <;> decide

/-- The two-digit rendering of a `u8` value contains no separator. -/
theorem colon_not_mem_toHex2 (n : Nat) (h : n ≤ 255) : ':' ∉ toHex2 n := by
  have h1 : n / 16 < 16 := by omega
  have h2 : n % 16 < 16 := by omega
  intro hmem
  simp only [toHex2, List.mem_cons, List.mem_singleton, List.not_mem_nil,
    or_false] at hmem
  rcases hmem with he | he
  · exact hexChar_ne_colon _ h1 he.symm
  · exact hexChar_ne_colon _ h2 he.symm

/-- One in-range accumulation step of the digit loop. -/
theorem hexAccum_cons (acc : Nat) (c : Char) (cs : List Char) (d : Nat)
    (hd : hexDigitVal c = some d) (hle : acc * 16 + d ≤ 255) :
    hexAccum acc (c :: cs) = hexAccum (acc * 16 + d) cs := by
  conv_lhs => unfold hexAccum
  rw [hd]
  show (if acc * 16 + d ≤ 255 then hexAccum (acc * 16 + d) cs else none) = _
  rw [if_pos hle]

/-- Parsing inverts the two-digit rendering of a `u8` value. -/
theorem fromStrRadix16_toHex2 (n : Nat) (h : n ≤ 255) :
    fromStrRadix16 (toHex2 n) = some n := by
  have h1 : n / 16 < 16 := by omega
  have h2 : n % 16 < 16 := by omega
  unfold fromStrRadix16 toHex2
  split
  · rename_i rest heq
    rw [List.cons_eq_cons] at heq
    exact absurd heq.1 (hexChar_ne_plus _ h1)
  · show hexAccum 0 [hexChar (n / 16), hexChar (n % 16)] = some n
    rw [hexAccum_cons _ _ _ _ (hexDigitVal_hexChar _ h1) (by omega),
        hexAccum_cons _ _ _ _ (hexDigitVal_hexChar _ h2) (by omega)]
    show some ((0 * 16 + n / 16) * 16 + n % 16) = some n
    congr 1
    omega

/-- Splitting a colon-free list yields the list itself as sole field. -/
theorem splitAux_of_no_colon (xs : List Char) (h : ':' ∉ xs) :
    splitAux xs = (xs, []) := by
  induction xs with
  | nil => rfl
  | cons c t ih =>
    have hc : c ≠ ':' := fun he => h (he ▸ List.mem_cons_self c t)
    have ht : ':' ∉ t := fun hm => h (List.mem_cons_of_mem c hm)
    simp [splitAux, hc, ih ht]

/-- Splitting past a colon-free field peels off exactly that field. -/
theorem splitAux_append (xs rest : List Char) (h : ':' ∉ xs) :
    splitAux (xs ++ ':' :: rest) = (xs, (splitAux rest).1 :: (splitAux rest).2) := by
  induction xs with
  | nil => simp [splitAux]
  | cons c t ih =>
    have hc : c ≠ ':' := fun he => h (he ▸ List.mem_cons_self c t)
    have ht : ':' ∉ t := fun hm => h (List.mem_cons_of_mem c hm)
    simp [splitAux, hc, ih ht]

/-- `splitOnColon` on a colon-free list. -/
theorem splitOnColon_no_colon (xs : List Char) (h : ':' ∉ xs) :
    splitOnColon xs = [xs] := by
  simp [splitOnColon, splitAux_of_no_colon xs h]

/-- `splitOnColon` peels off a leading colon-free field. -/
theorem splitOnColon_append (xs rest : List Char) (h : ':' ∉ xs) :
    splitOnColon (xs ++ ':' :: rest) = xs :: splitOnColon rest := by
  simp [splitOnColon, splitAux_append xs rest h]

/-- The canonical formatting of an in-range MAC address splits back into
its six two-digit fields. -/
theorem splitOnColon_address (m : MacAddr) (h0 : m.o0 ≤ 255) (h1 : m.o1 ≤ 255)
    (h2 : m.o2 ≤ 255) (h3 : m.o3 ≤ 255) (h4 : m.o4 ≤ 255) (h5 : m.o5 ≤ 255) :
    splitOnColon (MacAddr.address m) =
      [toHex2 m.o0, toHex2 m.o1, toHex2 m.o2, toHex2 m.o3, toHex2 m.o4,
       toHex2 m.o5] := by
  unfold MacAddr.address
  simp only [List.append_assoc, List.cons_append]
  rw [splitOnColon_append _ _ (colon_not_mem_toHex2 _ h0),
      splitOnColon_append _ _ (colon_not_mem_toHex2 _ h1),
      splitOnColon_append _ _ (colon_not_mem_toHex2 _ h2),
      splitOnColon_append _ _ (colon_not_mem_toHex2 _ h3),
      splitOnColon_append _ _ (colon_not_mem_toHex2 _ h4),
      splitOnColon_no_colon _ (colon_not_mem_toHex2 _ h5)]

/-- One loop step on a parsable field appends its value. -/
theorem fromStrGo_cons_valid (f : List Char) (fs : List (List Char))
    (acc : List Nat) (b : Nat) (hacc : acc.length < 6)
    (hb : fromStrRadix16 f = some b) :
    fromStrGo (f :: fs) acc = fromStrGo fs (acc ++ [b]) := by
  conv_lhs => rw [fromStrGo]
  rw [if_neg (by omega), hb]
  show (if f.length ≠ 0 then fromStrGo fs (acc ++ [b])
        else Except.error ParseMacAddrError.InvalidComponent) =
    fromStrGo fs (acc ++ [b])
  rw [if_pos (fromStrRadix16_ne_nil hb)]

/-- A rejected field makes the loop answer `InvalidComponent`. -/
theorem fromStrGo_invalid (f : List Char) (fs : List (List Char))
    (acc : List Nat) (h6 : ¬acc.length = 6) (hb : fromStrRadix16 f = none) :
    fromStrGo (f :: fs) acc = .error .InvalidComponent := by
  conv_lhs => unfold fromStrGo
  rw [if_neg h6, hb]

/-- A seventh field makes the loop answer `TooManyComponents`. -/
theorem fromStrGo_toomany (f : List Char) (fs : List (List Char))
    (acc : List Nat) (h6 : acc.length = 6) :
    fromStrGo (f :: fs) acc = .error .TooManyComponents := by
  conv_lhs => unfold fromStrGo
  rw [if_pos h6]

/-- The loop yields `InvalidComponent` exactly when a field rejected by
`u8::from_str_radix` occurs among the fields it would still parse. -/
theorem fromStrGo_invalid_iff (fs : List (List Char)) : ∀ acc : List Nat,
    acc.length ≤ 6 →
    (fromStrGo fs acc = .error .InvalidComponent ↔
      ∃ f ∈ fs.take (6 - acc.length), fromStrRadix16 f = none) := by
  induction fs with
  | nil =>
    intro acc hacc
    constructor
    · intro h
      unfold fromStrGo at h
      split at h <;> simp at h
    · rintro ⟨f, hf, _⟩
      simp at hf
  | cons f fs ih =>
    intro acc hacc
    by_cases h6 : acc.length = 6
    · rw [fromStrGo_toomany f fs acc h6, h6]
      simp
    · have hlt : acc.length < 6 := by omega
      have htake : 6 - acc.length = (6 - (acc.length + 1)) + 1 := by omega
      cases hb : fromStrRadix16 f with
      | none =>
        rw [fromStrGo_invalid f fs acc h6 hb, htake, List.take_succ_cons]
        constructor
        · intro _
          exact ⟨f, List.mem_cons_self _ _, hb⟩
        · intro _
          rfl
      | some b =>
        rw [fromStrGo_cons_valid f fs acc b hlt hb,
          ih (acc ++ [b]) (by simp; omega), htake, List.take_succ_cons]
        simp [hb]

/-- The loop yields `TooManyComponents` exactly when the fields it would
still parse are all accepted yet more fields remain. -/
theorem fromStrGo_toomany_iff (fs : List (List Char)) : ∀ acc : List Nat,
    acc.length ≤ 6 →
    (fromStrGo fs acc = .error .TooManyComponents ↔
      6 - acc.length < fs.length ∧
      ∀ f ∈ fs.take (6 - acc.length), (fromStrRadix16 f).isSome) := by
  induction fs with
  | nil =>
    intro acc hacc
    constructor
    · intro h
      unfold fromStrGo at h
      split at h <;> simp at h
    · rintro ⟨h1, _⟩
      simp at h1
  | cons f fs ih =>
    intro acc hacc
    by_cases h6 : acc.length = 6
    · rw [fromStrGo_toomany f fs acc h6, h6]
      simp
    · have hlt : acc.length < 6 := by omega
      have htake : 6 - acc.length = (6 - (acc.length + 1)) + 1 := by omega
      cases hb : fromStrRadix16 f with
      | none =>
        rw [fromStrGo_invalid f fs acc h6 hb, htake, List.take_succ_cons]
        simp [hb]
      | some b =>
        rw [fromStrGo_cons_valid f fs acc b hlt hb,
          ih (acc ++ [b]) (by simp; omega), htake, List.take_succ_cons]
        simp only [List.length_append, List.length_singleton, List.length_cons,
          List.length_nil, List.mem_cons, forall_eq_or_imp, hb,
          Option.isSome_some, true_and]
        constructor
        · rintro ⟨h1, h2⟩
          exact ⟨by omega, h2⟩
        · rintro ⟨h1, h2⟩
          exact ⟨by omega, h2⟩

/-- The loop yields `TooFewComponents` exactly when every field is
accepted but fewer than six ever arrive. -/
theorem fromStrGo_toofew_iff (fs : List (List Char)) : ∀ acc : List Nat,
    acc.length ≤ 6 →
    (fromStrGo fs acc = .error .TooFewComponents ↔
      acc.length + fs.length < 6 ∧ ∀ f ∈ fs, (fromStrRadix16 f).isSome) := by
  induction fs with
  | nil =>
    intro acc hacc
    by_cases h6 : acc.length = 6
    · have hgo : fromStrGo [] acc = .ok acc := by
        unfold fromStrGo
        rw [if_pos h6]
      rw [hgo]
      simp [h6]
    · have hgo : fromStrGo [] acc = .error .TooFewComponents := by
        unfold fromStrGo
        rw [if_neg h6]
      rw [hgo]
      simp
      omega
  | cons f fs ih =>
    intro acc hacc
    by_cases h6 : acc.length = 6
    · rw [fromStrGo_toomany f fs acc h6]
      simp
      omega
    · have hlt : acc.length < 6 := by omega
      cases hb : fromStrRadix16 f with
      | none =>
        rw [fromStrGo_invalid f fs acc h6 hb]
        simp [hb]
      | some b =>
        rw [fromStrGo_cons_valid f fs acc b hlt hb,
          ih (acc ++ [b]) (by simp; omega)]
        simp only [List.length_append, List.length_singleton, List.length_cons,
          List.length_nil, List.mem_cons, forall_eq_or_imp, hb,
          Option.isSome_some, true_and]
        constructor
        · rintro ⟨h1, h2⟩
          exact ⟨by omega, h2⟩
        · rintro ⟨h1, h2⟩
          exact ⟨by omega, h2⟩

/-- The loop succeeds exactly when all six expected fields are accepted
and exactly six arrive, yielding the accumulated octet values. -/
theorem fromStrGo_ok_iff (fs : List (List Char)) : ∀ (acc : List Nat),
    acc.length ≤ 6 → ∀ res : List Nat,
    (fromStrGo fs acc = .ok res ↔
      acc.length + fs.length = 6 ∧
      ∃ bs, fs.map fromStrRadix16 = bs.map some ∧ res = acc ++ bs) := by
  induction fs with
  | nil =>
    intro acc hacc res
    by_cases h6 : acc.length = 6
    · have hgo : fromStrGo [] acc = .ok acc := by
        unfold fromStrGo
        rw [if_pos h6]
      rw [hgo]
      constructor
      · intro h
        injection h with h
        exact ⟨by simp; omega, [], by simp, by simp [h]⟩
      · rintro ⟨_, bs, hmap, hres⟩
        have hbs : bs = [] := by
          have := hmap.symm
          simpa using this
        rw [hres, hbs, List.append_nil]
    · have hgo : fromStrGo [] acc = .error .TooFewComponents := by
        unfold fromStrGo
        rw [if_neg h6]
      rw [hgo]
      constructor
      · intro h
        exact absurd h (by simp)
      · rintro ⟨h1, _⟩
        exact absurd h1 (by simp; omega)
  | cons f fs ih =>
    intro acc hacc res
    by_cases h6 : acc.length = 6
    · rw [fromStrGo_toomany f fs acc h6]
      constructor
      · intro h
        exact absurd h (by simp)
      · rintro ⟨h1, _⟩
        simp at h1
        omega
    · have hlt : acc.length < 6 := by omega
      cases hb : fromStrRadix16 f with
      | none =>
        rw [fromStrGo_invalid f fs acc h6 hb]
        constructor
        · intro h
          exact absurd h (by simp)
        · rintro ⟨_, bs, hmap, _⟩
          cases bs with
          | nil => simp at hmap
          | cons b2 bs2 => simp [hb] at hmap
      | some b =>
        rw [fromStrGo_cons_valid f fs acc b hlt hb,
          ih (acc ++ [b]) (by simp; omega) res]
        constructor
        · rintro ⟨h1, bs2, hmap, hres⟩
          refine ⟨by simp at h1 ⊢; omega, b :: bs2, by simp [hb, hmap], ?_⟩
          rw [hres, List.append_assoc]
          rfl
        · rintro ⟨h1, bs, hmap, hres⟩
          cases bs with
          | nil => simp at hmap
          | cons b2 bs2 =>
            have hb2 : fromStrRadix16 f = some b2 ∧
                fs.map fromStrRadix16 = bs2.map some := by simpa using hmap
            have hbb : b2 = b := by
              have := hb2.1
              rw [hb] at this
              exact (Option.some.inj this).symm
            subst hbb
            refine ⟨by simp at h1 ⊢; omega, bs2, hb2.2, ?_⟩
            rw [hres, List.append_assoc]
            rfl

/-- `from_str` reports exactly the errors of its field loop. -/
theorem from_str_error_iff (s : List Char) (e : ParseMacAddrError) :
    MacAddr.from_str s = .error e ↔ fromStrGo (splitOnColon s) [] = .error e := by
  unfold MacAddr.from_str
  cases h : fromStrGo (splitOnColon s) [] with
  | ok parts => simp
  | error e2 => simp

/-- `from_str` succeeds with `m` exactly when the six split fields parse
to `m`'s octets (shared by the characterization and round-trip results). -/
theorem from_str_ok_iff_map (s : List Char) (m : MacAddr) :
    MacAddr.from_str s = .ok m ↔
      (splitOnColon s).map fromStrRadix16 =
        [some m.o0, some m.o1, some m.o2, some m.o3, some m.o4, some m.o5] := by
  cases hgo : fromStrGo (splitOnColon s) [] with
  | error e =>
    have hfs : MacAddr.from_str s = .error e := by
      unfold MacAddr.from_str
      rw [hgo]
    rw [hfs]
    constructor
    · intro habs
      exact absurd habs (by simp)
    · intro hmap
      have hok : fromStrGo (splitOnColon s) [] =
          .ok [m.o0, m.o1, m.o2, m.o3, m.o4, m.o5] := by
        rw [fromStrGo_ok_iff _ _ (by simp)]
        have hlen : (splitOnColon s).length = 6 := by
          have := congrArg List.length hmap
          simpa using this
        exact ⟨by simp [hlen], [m.o0, m.o1, m.o2, m.o3, m.o4, m.o5],
          by simpa using hmap, by simp⟩
      rw [hgo] at hok
      cases hok
  | ok parts =>
    have hfs : MacAddr.from_str s = .ok ⟨parts.getD 0 0, parts.getD 1 0,
        parts.getD 2 0, parts.getD 3 0, parts.getD 4 0, parts.getD 5 0⟩ := by
      unfold MacAddr.from_str
      rw [hgo]
    have hprops := (fromStrGo_ok_iff _ _ (by simp) parts).mp hgo
    obtain ⟨hlen, bs, hmap, hres⟩ := hprops
    have hres2 : parts = bs := by simpa using hres
    subst hres2
    have hplen : parts.length = 6 := by
      have hml := congrArg List.length hmap
      simp at hml hlen
      omega
    rcases parts with _ | ⟨b0, _ | ⟨b1, _ | ⟨b2, _ | ⟨b3, _ | ⟨b4, _ | ⟨b5, rest⟩⟩⟩⟩⟩⟩ <;>
      simp at hplen
    subst hplen
    rw [hfs, hmap]
    constructor
    · intro hok
      injection hok with hok
      subst hok
      rfl
    · intro hmm
      simp only [List.map_cons, List.map_nil, List.cons_eq_cons,
        Option.some.injEq, and_true] at hmm
      obtain ⟨e0, e1, e2, e3, e4, e5⟩ := hmm
      subst e0
      subst e1
      subst e2
      subst e3
      subst e4
      subst e5
      rfl

/-- C1 counterexample: `"0:0:0:0:0:0"` — every field is a single hex
digit, not a 2-hex-digit byte, so the claim demands `InvalidComponent`;
the code accepts it and returns the zero address. -/
theorem from_str_accepts_non_two_digit_fields :
    MacAddr.from_str (String.toList "0:0:0:0:0:0") = .ok ⟨0, 0, 0, 0, 0, 0⟩ ∧
    ∀ f ∈ splitOnColon (String.toList "0:0:0:0:0:0"), f.length ≠ 2 := by
  decide

/-- C1 (amended): `from_str` fails with `TooManyComponents` iff more than
6 fields arrive and the first 6 are all accepted by `u8::from_str_radix`
(base 16, so 1-digit fields, `'+'`-prefixed fields and redundant leading
zeros are accepted — not only exact 2-hex-digit bytes); with
`InvalidComponent` iff one of the first 6 fields is rejected (empty,
non-hex, or value above 255); with `TooFewComponents` iff fewer than 6
fields arrive and all are accepted; and succeeds otherwise, with the 6
parsed octets and no partial success. -/
theorem from_str_characterization (s : List Char) :
    (MacAddr.from_str s = .error .TooManyComponents ↔
      6 < (splitOnColon s).length ∧
      ∀ f ∈ (splitOnColon s).take 6, (fromStrRadix16 f).isSome) ∧
    (MacAddr.from_str s = .error .InvalidComponent ↔
      ∃ f ∈ (splitOnColon s).take 6, fromStrRadix16 f = none) ∧
    (MacAddr.from_str s = .error .TooFewComponents ↔
      (splitOnColon s).length < 6 ∧
      ∀ f ∈ splitOnColon s, (fromStrRadix16 f).isSome) ∧
    (∀ m : MacAddr, MacAddr.from_str s = .ok m ↔
      (splitOnColon s).map fromStrRadix16 =
        [some m.o0, some m.o1, some m.o2, some m.o3, some m.o4, some m.o5]) := by
  refine ⟨?_, ?_, ?_, fun m => from_str_ok_iff_map s m⟩
  · rw [from_str_error_iff, fromStrGo_toomany_iff _ _ (by simp)]
    simp
  · rw [from_str_error_iff, fromStrGo_invalid_iff _ _ (by simp)]
    simp
  · rw [from_str_error_iff, fromStrGo_toofew_iff _ _ (by simp)]
    simp

/-- C4: round trip of strict parsing and canonical formatting — for every
MAC address value (octets in the `u8` range), parsing its canonical
formatting returns it, and consequently
`parse_strict (to_canonical_string (parse_strict s)) = parse_strict s`
for every string `s` that parses. -/
theorem parse_format_roundtrip :
    (∀ m : MacAddr, m.o0 ≤ 255 → m.o1 ≤ 255 → m.o2 ≤ 255 → m.o3 ≤ 255 →
      m.o4 ≤ 255 → m.o5 ≤ 255 →
      MacAddr.from_str (MacAddr.address m) = .ok m) ∧
    (∀ (s : List Char) (m : MacAddr), MacAddr.from_str s = .ok m →
      MacAddr.from_str (MacAddr.address m) = MacAddr.from_str s) := by
  have key : ∀ m : MacAddr, m.o0 ≤ 255 → m.o1 ≤ 255 → m.o2 ≤ 255 →
      m.o3 ≤ 255 → m.o4 ≤ 255 → m.o5 ≤ 255 →
      MacAddr.from_str (MacAddr.address m) = .ok m := by
    intro m h0 h1 h2 h3 h4 h5
    rw [from_str_ok_iff_map, splitOnColon_address m h0 h1 h2 h3 h4 h5]
    simp [fromStrRadix16_toHex2 _ h0, fromStrRadix16_toHex2 _ h1,
      fromStrRadix16_toHex2 _ h2, fromStrRadix16_toHex2 _ h3,
      fromStrRadix16_toHex2 _ h4, fromStrRadix16_toHex2 _ h5]
  refine ⟨key, ?_⟩
  intro s m h
  have hmap := (from_str_ok_iff_map s m).mp h
  have hle : ∀ b, some b ∈ (splitOnColon s).map fromStrRadix16 → b ≤ 255 := by
    intro b hbmem
    rcases List.mem_map.mp hbmem with ⟨f, _, hf⟩
    exact fromStrRadix16_le hf
  have h0 : m.o0 ≤ 255 := hle _ (by rw [hmap]; simp)
  have h1 : m.o1 ≤ 255 := hle _ (by rw [hmap]; simp)
  have h2 : m.o2 ≤ 255 := hle _ (by rw [hmap]; simp)
  have h3 : m.o3 ≤ 255 := hle _ (by rw [hmap]; simp)
  have h4 : m.o4 ≤ 255 := hle _ (by rw [hmap]; simp)
  have h5 : m.o5 ≤ 255 := hle _ (by rw [hmap]; simp)
  rw [h, key m h0 h1 h2 h3 h4 h5]

/-- C4 witness: the round trip applied to a concrete address, together
with the string form applied to a concrete parse. -/
theorem parse_format_roundtrip_witness :
    MacAddr.from_str (MacAddr.address ⟨0, 0x11, 0x22, 0xff, 0xab, 0xcd⟩) =
      .ok ⟨0, 0x11, 0x22, 0xff, 0xab, 0xcd⟩ ∧
    MacAddr.from_str (MacAddr.address ⟨0xaa, 0xbb, 0xcc, 0xdd, 0xee, 0xff⟩) =
      MacAddr.from_str (String.toList "aa:bb:cc:dd:ee:ff") :=
  ⟨parse_format_roundtrip.1 ⟨0, 0x11, 0x22, 0xff, 0xab, 0xcd⟩ (by decide)
      (by decide) (by decide) (by decide) (by decide) (by decide),
   parse_format_roundtrip.2 (String.toList "aa:bb:cc:dd:ee:ff")
      ⟨0xaa, 0xbb, 0xcc, 0xdd, 0xee, 0xff⟩ (by decide)⟩

end Netdev
